import Mathlib

/-!
# Verification of the omni.py execution-series aggregator

Shallow embedding of the CORE logic of `src/omni.py`:

* the day-window construction of `compute_executed_series` (lines 291-301),
  specialized to a fixed-offset timezone, where each local day spans exactly
  86400 seconds of UTC epoch time;
* the first-executed classification and the daily/cumulative series
  (lines 303-338);
* the reconciliation adjustment inlined in `main` (lines 656-665) and
  repeated verbatim in `write_per_plan_jsons` (lines 561-570);
* the per-run summary builder
  `build_rows_and_grand_from_tests_map_with_metadata` (lines 344-439).

Machine integers are modelled as `Int` (Python ints are unbounded, so no
modular wrap is needed).  Fallible code paths (the `day_start_utc[0]` access
that can raise `IndexError` on an empty window) are modelled with `Except`.
-/

/-- Models Python's `IndexError`: in `compute_executed_series` the only
possible runtime failure is the `day_start_utc[0]` access at line 313 when the
day window is empty. -/
inductive OmniError where
  | indexError
deriving DecidableEq, Repr

/-- One timeline: the list of `(created_on, status_id)` observations for one
`(run_id, test_id)` pair, as stored in `tests_map` (sorted ascending by
timestamp by `fetch_all_results`, line 241). -/
abbrev Timeline := List (Int × Int)

/-- The `tests_map` dictionary keyed by `(run_id, test_id)`, modelled as an
association list (a Python dict has no duplicate keys; the series code only
iterates over its entries). -/
abbrev TestsMap := List ((Int × Int) × Timeline)

/-- Line 61: status ids considered "executed" (passed=1, failed=5). -/
def EXECUTED_FOR_COUNTS : List Int := [1, 5]

/-- The inner day-scan of lines 308-311: the first `day_idx` with
`day_start_utc[day_idx] <= ts <= day_end_utc[day_idx]`, over the zipped
window list. -/
def findDayIdx : List (Int × Int) → Int → Option Nat
  | [], _ => none
  | (ds, de) :: rest, ts =>
      if ds ≤ ts ∧ ts ≤ de then some 0
      else (findDayIdx rest ts).map (· + 1)

/-- Lines 308-316: classify one executed observation's timestamp.  Returns the
day index, `-1` for before-window, or the clamped last index; the
`day_start_utc[0]` access raises `IndexError` when the window is empty. -/
def classifyTs (w : List (Int × Int)) (ts : Int) : Except OmniError Int :=
  match findDayIdx w ts with
  | some i => .ok (i : Int)
  | none =>
      match w.head? with
      | some p => .ok (if ts < p.1 then (-1 : Int) else ((w.length - 1 : Nat) : Int))
      | none => .error .indexError

/-- Lines 305-317: scan a timeline in order and classify the first observation
whose status is in `EXECUTED_FOR_COUNTS`; `none` when the pair has no executed
observation. -/
def firstExecIdx (w : List (Int × Int)) : Timeline → Except OmniError (Option Int)
  | [] => .ok none
  | (ts, st) :: rest =>
      if st ∈ EXECUTED_FOR_COUNTS then (classifyTs w ts).map some
      else firstExecIdx w rest

/-- Lines 324-326: add 1 to every list element at an index `≥ start`
(`for di in range(start, len(ordered_days)): cumulative_per_day[di] += 1`). -/
def addFrom : Nat → List Int → List Int
  | _, [] => []
  | 0, x :: xs => (x + 1) :: addFrom 0 xs
  | s + 1, x :: xs => x :: addFrom s xs

/-- Line 332: add 1 to the element at one index
(`daily_presence[first_idx] += 1`). -/
def incAt : Nat → List Int → List Int
  | _, [] => []
  | 0, x :: xs => (x + 1) :: xs
  | i + 1, x :: xs => x :: incAt i xs

/-- One step of the cumulative loop of lines 321-326. -/
def cumStep (acc : List Int) (c : Option Int) : List Int :=
  match c with
  | none => acc
  | some ci => addFrom (if ci = -1 then 0 else ci.toNat) acc

/-- One step of the daily-presence loop of lines 329-332. -/
def dailyStep (acc : List Int) (c : Option Int) : List Int :=
  match c with
  | none => acc
  | some ci => if ci = -1 then acc else incAt ci.toNat acc

/-- The defensive non-decreasing clamp loop body: carries the previous element
and lifts any smaller element up to it. -/
def clampGo : Int → List Int → List Int
  | _, [] => []
  | prev, y :: ys =>
      (if y < prev then prev else y) :: clampGo (if y < prev then prev else y) ys

/-- Lines 334-336 (and 663-665, 568-570): the in-place forward pass
`if c[i] < c[i-1]: c[i] = c[i-1]`. -/
def clampMono : List Int → List Int
  | [] => []
  | x :: xs => x :: clampGo x xs

/-- The series computation of lines 303-338 on an explicit day window `w`
(the zipped `day_start_utc`/`day_end_utc` lists): build the per-pair
first-executed classification, then the cumulative and daily loops, then the
defensive clamp.  Returns `(daily_presence, cumulative_per_day)`; the
`ordered_days` date list returned by the source carries no counts and is
omitted. -/
def compute_series_on_window (tm : TestsMap) (w : List (Int × Int)) :
    Except OmniError (List Int × List Int) := do
  let idxs ← tm.mapM (fun e => firstExecIdx w e.2)
  let cumulative_per_day := idxs.foldl cumStep (List.replicate w.length 0)
  let daily_presence := idxs.foldl dailyStep (List.replicate w.length 0)
  return (daily_presence, clampMono cumulative_per_day)

/-- Lines 292-301 specialized to a fixed-offset timezone: the window of
`days.toNat` consecutive local days (Python's `range(days)` is empty for
`days <= 0`).  `base` is the UTC epoch second of local midnight of the oldest
window day (derived in the source from `datetime.now` and the configured
timezone); with a fixed offset every local day spans exactly 86400 seconds and
the `int(...)` truncation of `23:59:59.999999` yields `start + 86399`. -/
def buildWindow (days : Int) (base : Int) : List (Int × Int) :=
  (List.range days.toNat).map
    (fun (i : Nat) => (base + 86400 * (i : Int), base + 86400 * (i : Int) + 86399))

/-- `compute_executed_series` (lines 288-338) with the window anchor made an
explicit `base` parameter. -/
def compute_executed_series (tm : TestsMap) (days : Int) (base : Int) :
    Except OmniError (List Int × List Int) :=
  compute_series_on_window tm (buildWindow days base)

/-- Python's `cumulative_series[-1] if cumulative_series else 0`
(lines 563, 658). -/
def lastD (l : List Int) : Int := l.getLast?.getD 0

/-- The reconciliation adjustment inlined in `main` (lines 656-665) and in
`write_per_plan_jsons` (lines 561-570): compute the deficit against the
authoritative executed total, add it to every element when positive, then
re-clamp.  Returns the adjusted series and the deficit
(`missing_from_meta`, surfaced as `source_discrepancy`). -/
def reconcile_cumulative (cumulative_series : List Int) (meta_executed : Int) :
    List Int × Int :=
  let current_last := lastD cumulative_series
  let missing_from_meta := max 0 (meta_executed - current_last)
  let c2 := if 0 < missing_from_meta
    then cumulative_series.map (· + missing_from_meta)
    else cumulative_series
  (clampMono c2, missing_from_meta)

/-- A list is non-decreasing from left to right. -/
def NonDecr (l : List Int) : Prop := List.Chain' (· ≤ ·) l

/-- Line 306: the timestamp of the first observation whose status is in
`EXECUTED_FOR_COUNTS`, if any. -/
def firstExecutedTs : Timeline → Option Int
  | [] => none
  | (ts, st) :: rest => if st ∈ EXECUTED_FOR_COUNTS then some ts else firstExecutedTs rest

/-- Whether a timeline's first executed observation is classified
before-window (`first_idx == -1`) on the given window. -/
def isBeforeWindow (w : List (Int × Int)) (tl : Timeline) : Bool :=
  match firstExecIdx w tl with
  | .ok (some ci) => ci == -1
  | _ => false

/-- The number of `(run, test)` pairs classified before-window. -/
def before_window_count (tm : TestsMap) (days : Int) (base : Int) : Nat :=
  tm.countP (fun e => isBeforeWindow (buildWindow days base) e.2)

example : compute_executed_series [((1, 1), [(50, 1)])] 3 0 =
    .ok ([1, 0, 0], [1, 1, 1]) := by rfl

example : compute_executed_series
    [((1, 1), [(50, 1)]), ((1, 2), [(90000, 5)]), ((1, 3), [(-7, 1)]),
     ((1, 4), [(999999, 5)]), ((1, 5), [(100, 3)])] 3 0 =
    .ok ([1, 1, 1], [2, 3, 4]) := by rfl

example : compute_executed_series [] 0 0 = .ok ([], []) := by rfl

example : compute_executed_series [((1, 1), [(5, 1)])] 0 0 =
    .error .indexError := by rfl

example : reconcile_cumulative [1, 2, 7] 10 = ([4, 5, 10], 3) := by decide

/-- The five authoritative counters of a run's metadata.  Models lines
380-387: `some` when all five `int(meta.get(..., 0))` conversions succeed
(a missing key defaults to 0), `none` when any conversion raises and the
except-branch resets all five to `None`. -/
structure Counters where
  passed : Int
  blocked : Int
  untested : Int
  retest : Int
  failed : Int
deriving DecidableEq, Repr

/-- A fetched run-metadata dict (`get_run` response).  `fetch_run_meta`
returns `{}` on any HTTP/JSON failure, which is falsy at line 377; that case
is modelled as the mapping yielding `none` for the run. -/
structure RunMeta where
  name : Option String
  description : Option String
  configuration : Option String
  config : Option String
  counters : Option Counters
deriving DecidableEq, Repr

/-- Python's `a or b` on optional strings: an empty string is falsy. -/
def pyOr (a b : Option String) : Option String :=
  match a with
  | some s => if s = "" then b else some s
  | none => b

/-- Python's `not configuration` test on an optional string. -/
def strFalsy (s : Option String) : Bool :=
  match s with
  | some str => str == ""
  | none => true

/-- Python's `par.rsplit(")", 1)[0]`: everything before the last `")"`, or the
whole string when it contains none. -/
def rsplitBeforeParen (par : String) : String :=
  let ps := par.splitOn ")"
  if ps.length ≤ 1 then par else String.intercalate ")" ps.dropLast

/-- Lines 389-396: when no configuration was fetched and the run name embeds a
parenthesized suffix, split `"Name (Config)"` at the first `"("` and the last
`")"` into a stripped name and configuration; empty results fall back to the
original name / to no configuration. -/
def parenSplit (run_name configuration : Option String) :
    Option String × Option String :=
  match run_name with
  | some rn =>
      if strFalsy configuration && rn.contains '(' && rn.contains ')' then
        let parts := rn.splitOn "("
        let name_part := parts.headI
        let par0 := String.intercalate "(" parts.tail
        let par := (rsplitBeforeParen par0).trim
        let configuration2 := if par = "" then none else some par
        let run_name2 := if name_part.trim = "" then rn else name_part.trim
        (some run_name2, configuration2)
      else (run_name, configuration)
  | none => (run_name, configuration)

/-- Line 398: `run_label = run_name or f"Run {run_id}"`. -/
def run_label_of (run_name : Option String) (run_id : Int) : String :=
  match run_name with
  | some s => if s = "" then "Run " ++ toString run_id else s
  | none => "Run " ++ toString run_id

/-- Lines 349-352: the sorted distinct test ids observed for one run in the
tests map (`per_run_testids[run_id]`, a set, then `sorted(...)` at
line 407). -/
def perRunTestIds (tm : TestsMap) (rid : Int) : List Int :=
  List.insertionSort (· ≤ ·)
    ((tm.filterMap (fun e => if e.1.1 = rid then some e.1.2 else none)).dedup)

/-- Lines 350-354 and 411: `last_status.get((run_id, tid))` — the status of
the most recent observation of the pair, absent when the pair has no
observations (a dict key is unique, so the first matching entry is the
entry). -/
def lastStatusOf (tm : TestsMap) (rid tid : Int) : Option Int :=
  (tm.find? (fun e => e.1 == (rid, tid))).bind (fun e => e.2.getLast?.map Prod.snd)

/-- One step of the local-tally loop of lines 410-417, on the accumulator
`(passed, failed, executed)`. -/
def tallyStep (tm : TestsMap) (rid : Int) (acc : Int × Int × Int) (tid : Int) :
    Int × Int × Int :=
  let st := lastStatusOf tm rid tid
  if st = some 1 then (acc.1 + 1, acc.2.1, acc.2.2 + 1)
  else if st = some 5 then (acc.1, acc.2.1 + 1, acc.2.2 + 1)
  else acc

/-- Lines 406-417: the fallback tally over the observed test ids, returning
`(passed, failed, executed)`. -/
def tallyFallback (tm : TestsMap) (rid : Int) : Int × Int × Int :=
  (perRunTestIds tm rid).foldl (tallyStep tm rid) (0, 0, 0)

/-- One output row of the summary builder (lines 420-430). -/
structure Row where
  run_id : Int
  run_label : String
  run_name : Option String
  configuration : Option String
  planned : Int
  executed : Int
  not_executed : Int
  passed : Int
  failed : Int
deriving DecidableEq, Repr

/-- The grand-totals mapping (line 357); the Python dict keys are
`"Planned"`, `"Executed"`, `"Not Executed"`, `"Passed"`, `"Failed"`. -/
structure Grand where
  planned : Int
  executed : Int
  not_executed : Int
  passed : Int
  failed : Int
deriving DecidableEq, Repr

/-- Lines 371-430: build the summary row for one run.  When the metadata has
usable counters (`meta_passed is not None`) the authoritative counters win;
otherwise the local tally over the timelines is used.  The `or 0` guards of
lines 401-405 are identity on integers that are known non-`None` and are
dropped. -/
def buildRowFor (tm : TestsMap) (metaOf : Int → Option RunMeta) (run_id : Int) :
    Row :=
  let meta := metaOf run_id
  let run_name0 : Option String :=
    match meta with
    | some m => pyOr m.name m.description
    | none => none
  let configuration0 : Option String :=
    match meta with
    | some m => pyOr m.configuration m.config
    | none => none
  let counters : Option Counters :=
    match meta with
    | some m => m.counters
    | none => none
  let rnc := parenSplit run_name0 configuration0
  let run_label := run_label_of rnc.1 run_id
  match counters with
  | some c =>
      { run_id := run_id, run_label := run_label, run_name := rnc.1,
        configuration := rnc.2,
        planned := c.passed + c.blocked + c.untested + c.retest + c.failed,
        executed := c.passed + c.failed,
        not_executed := c.blocked + c.untested,
        passed := c.passed, failed := c.failed }
  | none =>
      let t := tallyFallback tm run_id
      let planned : Int := ((perRunTestIds tm run_id).length : Int)
      { run_id := run_id, run_label := run_label, run_name := rnc.1,
        configuration := rnc.2,
        planned := planned,
        executed := t.2.2,
        not_executed := planned - t.2.2,
        passed := t.1, failed := t.2.1 }

/-- Line 359: `sorted(set(list(per_run_testids.keys()) + RUN_IDS))`, with the
configured `RUN_IDS` passed explicitly. -/
def run_ids_all (tm : TestsMap) (runIds : List Int) : List Int :=
  List.insertionSort (· ≤ ·) ((tm.map (fun e => e.1.1)) ++ runIds).dedup

/-- `build_rows_and_grand_from_tests_map_with_metadata` (lines 344-439), with
the per-run metadata fetch modelled as the mapping `metaOf` (the fan-in
`meta_store`, where a failed fetch yields `none`): one row per run id, grand
totals summed field-wise, rows sorted by ascending run id. -/
def build_rows_and_grand (tm : TestsMap) (metaOf : Int → Option RunMeta)
    (runIds : List Int) : List Row × Grand :=
  let rows := (run_ids_all tm runIds).map (buildRowFor tm metaOf)
  let grand := rows.foldl
    (fun g r => ⟨g.planned + r.planned, g.executed + r.executed,
      g.not_executed + r.not_executed, g.passed + r.passed, g.failed + r.failed⟩)
    (⟨0, 0, 0, 0, 0⟩ : Grand)
  (List.insertionSort (fun a b => a.run_id ≤ b.run_id) rows, grand)

example :
    (buildRowFor [] (fun _ => some ⟨some "R (cfg)", none, none, none,
        some ⟨5, 1, 0, 0, 2⟩⟩) 10).planned = 8 := by rfl

example :
    buildRowFor [((7, 3), [(10, 5), (20, 1)]), ((7, 4), [(9, 5)]), ((8, 1), [(4, 1)])]
      (fun _ => none) 7 =
    { run_id := 7, run_label := "Run 7", run_name := none, configuration := none,
      planned := 2, executed := 2, not_executed := 0, passed := 1, failed := 1 } := by
  rfl

/-! ## Basic lemmas about the clamp pass -/

theorem clampGo_chain_and_head (l : List Int) :
    ∀ prev : Int, List.Chain' (· ≤ ·) (clampGo prev l) ∧
      ∀ z ∈ (clampGo prev l).head?, prev ≤ z := by
  induction l with
  | nil => intro prev; simp [clampGo]
  | cons y ys ih =>
      intro prev
      obtain ⟨ihc, ihh⟩ := ih (if y < prev then prev else y)
      refine ⟨List.chain'_cons'.mpr ⟨?_, ihc⟩, ?_⟩
      · intro z hz
        have := ihh z hz
        split at this <;> split <;> omega
      · simp only [clampGo, List.head?_cons, Option.mem_def, Option.some.injEq]
        intro z hz
        subst hz
        split <;> omega

theorem nonDecr_clampMono (l : List Int) : NonDecr (clampMono l) := by
  cases l with
  | nil => simp [clampMono, NonDecr]
  | cons x xs =>
      obtain ⟨hc, hh⟩ := clampGo_chain_and_head xs x
      exact List.chain'_cons'.mpr ⟨hh, hc⟩

theorem clampGo_eq_self (l : List Int) :
    ∀ prev : Int, (∀ z ∈ l.head?, prev ≤ z) → List.Chain' (· ≤ ·) l →
      clampGo prev l = l := by
  induction l with
  | nil => intro prev _ _; rfl
  | cons y ys ih =>
      intro prev hh hc
      have hpy : prev ≤ y := hh y (by simp)
      obtain ⟨hhy, hcy⟩ := List.chain'_cons'.mp hc
      simp only [clampGo, if_neg (by omega : ¬ y < prev)]
      exact congrArg (y :: ·) (ih y hhy hcy)

theorem clampMono_eq_self {l : List Int} (h : NonDecr l) : clampMono l = l := by
  cases l with
  | nil => rfl
  | cons x xs =>
      obtain ⟨hh, hc⟩ := List.chain'_cons'.mp h
      exact congrArg (x :: ·) (clampGo_eq_self xs x hh hc)

theorem length_clampGo (l : List Int) : ∀ prev, (clampGo prev l).length = l.length := by
  induction l with
  | nil => intro _; rfl
  | cons y ys ih => intro prev; simp [clampGo, ih]

theorem length_clampMono (l : List Int) : (clampMono l).length = l.length := by
  cases l with
  | nil => rfl
  | cons x xs => simp [clampMono, length_clampGo]

theorem lastD_cons {l : List Int} (x : Int) (h : l ≠ []) :
    lastD (x :: l) = lastD l := by
  cases l with
  | nil => exact absurd rfl h
  | cons y ys => simp [lastD, List.getLast?_cons_cons]

theorem lastD_clampGo_ge (l : List Int) :
    ∀ prev : Int, l ≠ [] →
      lastD l ≤ lastD (clampGo prev l) ∧ prev ≤ lastD (clampGo prev l) := by
  induction l with
  | nil => intro _ h; exact absurd rfl h
  | cons y ys ih =>
      intro prev _
      cases ys with
      | nil => simp [clampGo, lastD]; split <;> omega
      | cons z zs =>
          have hne : clampGo (if y < prev then prev else y) (z :: zs) ≠ [] := by
            intro h
            have := length_clampGo (z :: zs) (if y < prev then prev else y)
            rw [h] at this
            simp at this
          obtain ⟨h1, h2⟩ := ih (if y < prev then prev else y) (by simp)
          rw [show clampGo prev (y :: z :: zs) =
                (if y < prev then prev else y) ::
                  clampGo (if y < prev then prev else y) (z :: zs) from rfl,
              lastD_cons _ hne, lastD_cons _ (by simp)]
          constructor
          · exact h1
          · have : prev ≤ (if y < prev then prev else y) := by split <;> omega
            omega

theorem lastD_clampMono_ge {l : List Int} (h : l ≠ []) :
    lastD l ≤ lastD (clampMono l) := by
  cases l with
  | nil => exact absurd rfl h
  | cons x xs =>
      cases xs with
      | nil => simp [clampMono, clampGo]
      | cons y ys =>
          have hne : clampGo x (y :: ys) ≠ [] := by
            intro h
            have := length_clampGo (y :: ys) x
            rw [h] at this
            simp at this
          rw [show clampMono (x :: y :: ys) = x :: clampGo x (y :: ys) from rfl,
              lastD_cons _ hne, lastD_cons _ (by simp)]
          exact (lastD_clampGo_ge (y :: ys) x (by simp)).1

/-! ## Basic lemmas about addFrom and incAt -/

theorem length_addFrom (l : List Int) : ∀ s, (addFrom s l).length = l.length := by
  induction l with
  | nil => intro s; cases s <;> rfl
  | cons x xs ih =>
      intro s
      cases s with
      | zero => simp [addFrom, ih]
      | succ s => simp [addFrom, ih]

theorem head?_addFrom (l : List Int) (s : Nat) :
    (addFrom s l).head? = l.head?.map (fun z => if s = 0 then z + 1 else z) := by
  cases l with
  | nil => cases s <;> rfl
  | cons x xs => cases s <;> simp [addFrom]

theorem nonDecr_addFrom (l : List Int) :
    ∀ s, NonDecr l → NonDecr (addFrom s l) := by
  induction l with
  | nil => intro s _; cases s <;> exact List.chain'_nil
  | cons x xs ih =>
      intro s h
      obtain ⟨hh, hc⟩ := List.chain'_cons'.mp h
      cases s with
      | zero =>
          refine List.chain'_cons'.mpr ⟨?_, ih 0 hc⟩
          intro z hz
          rw [head?_addFrom] at hz
          simp only [Option.mem_def, Option.map_eq_some'] at hz
          obtain ⟨z0, hz0, hz0e⟩ := hz
          have := hh z0 hz0
          simp at hz0e
          omega
      | succ s =>
          refine List.chain'_cons'.mpr ⟨?_, ih s hc⟩
          intro z hz
          rw [head?_addFrom] at hz
          simp only [Option.mem_def, Option.map_eq_some'] at hz
          obtain ⟨z0, hz0, hz0e⟩ := hz
          have := hh z0 hz0
          split at hz0e <;> omega

theorem addFrom_ne_nil {l : List Int} (s : Nat) (h : l ≠ []) : addFrom s l ≠ [] := by
  intro hc
  have := length_addFrom l s
  rw [hc] at this
  exact h (List.length_eq_zero.mp this.symm)

theorem lastD_addFrom (l : List Int) :
    ∀ s, s < l.length → lastD (addFrom s l) = lastD l + 1 := by
  induction l with
  | nil => intro s h; simp at h
  | cons x xs ih =>
      intro s hs
      cases xs with
      | nil =>
          have hs0 : s = 0 := by simp at hs; omega
          subst hs0
          simp [addFrom, lastD]
      | cons y ys =>
          cases s with
          | zero =>
              rw [show addFrom 0 (x :: y :: ys) = (x + 1) :: addFrom 0 (y :: ys) from rfl,
                  lastD_cons _ (addFrom_ne_nil 0 (by simp)), lastD_cons _ (by simp)]
              exact ih 0 (by simp)
          | succ s =>
              rw [show addFrom (s + 1) (x :: y :: ys) = x :: addFrom s (y :: ys) from rfl,
                  lastD_cons _ (addFrom_ne_nil s (by simp)), lastD_cons _ (by simp)]
              exact ih s (by simpa using hs)

theorem addFrom_zero_eq_map (l : List Int) : addFrom 0 l = l.map (· + 1) := by
  induction l with
  | nil => rfl
  | cons x xs ih => simp [addFrom, ih]

theorem length_incAt (l : List Int) : ∀ i, (incAt i l).length = l.length := by
  induction l with
  | nil => intro i; cases i <;> rfl
  | cons x xs ih =>
      intro i
      cases i with
      | zero => rfl
      | succ i => simp [incAt, ih]

theorem sum_incAt (l : List Int) : ∀ i, i < l.length → (incAt i l).sum = l.sum + 1 := by
  induction l with
  | nil => intro i h; simp at h
  | cons x xs ih =>
      intro i hi
      cases i with
      | zero => simp [incAt]; ring
      | succ i =>
          have := ih i (by simpa using hi)
          simp [incAt, this]
          ring

theorem getElem?_incAt_self (l : List Int) :
    ∀ i, i < l.length → (incAt i l)[i]? = l[i]?.map (· + 1) := by
  induction l with
  | nil => intro i h; simp at h
  | cons x xs ih =>
      intro i hi
      cases i with
      | zero => simp [incAt]
      | succ i => simpa [incAt] using ih i (by simpa using hi)

theorem getElem?_incAt_ne (l : List Int) :
    ∀ i j, j ≠ i → (incAt i l)[j]? = l[j]? := by
  induction l with
  | nil => intro i j _; cases i <;> rfl
  | cons x xs ih =>
      intro i j hji
      cases i with
      | zero =>
          cases j with
          | zero => exact absurd rfl hji
          | succ j => simp [incAt]
      | succ i =>
          cases j with
          | zero => simp [incAt]
          | succ j => simpa [incAt] using ih i j (by omega)

/-! ## Characterizing the cumulative and daily folds -/

/-- The classifications a window of `N` days can produce: `-1` or an index
below `N`. -/
def InRange (N : Nat) (c : Option Int) : Prop :=
  ∀ ci, c = some ci → ci = -1 ∨ (0 ≤ ci ∧ ci.toNat < N)

/-- Whether a classification lands in a daily bucket (in-window or clamped,
not before-window). -/
def countsDaily (c : Option Int) : Bool :=
  match c with
  | some ci => ci != -1
  | none => false

theorem length_cumStep (acc : List Int) (c : Option Int) :
    (cumStep acc c).length = acc.length := by
  cases c with
  | none => rfl
  | some ci => simp [cumStep, length_addFrom]

theorem length_dailyStep (acc : List Int) (c : Option Int) :
    (dailyStep acc c).length = acc.length := by
  cases c with
  | none => rfl
  | some ci =>
      simp only [dailyStep]
      split
      · rfl
      · simp [length_incAt]

theorem length_foldl_cumStep (cs : List (Option Int)) :
    ∀ acc : List Int, (cs.foldl cumStep acc).length = acc.length := by
  induction cs with
  | nil => intro acc; rfl
  | cons c cs ih =>
      intro acc
      rw [List.foldl_cons, ih, length_cumStep]

theorem length_foldl_dailyStep (cs : List (Option Int)) :
    ∀ acc : List Int, (cs.foldl dailyStep acc).length = acc.length := by
  induction cs with
  | nil => intro acc; rfl
  | cons c cs ih =>
      intro acc
      rw [List.foldl_cons, ih, length_dailyStep]

theorem nonDecr_foldl_cumStep (cs : List (Option Int)) :
    ∀ acc : List Int, NonDecr acc → NonDecr (cs.foldl cumStep acc) := by
  induction cs with
  | nil => intro acc h; exact h
  | cons c cs ih =>
      intro acc h
      rw [List.foldl_cons]
      refine ih _ ?_
      cases c with
      | none => exact h
      | some ci => exact nonDecr_addFrom acc _ h

theorem lastD_foldl_cumStep (cs : List (Option Int)) :
    ∀ acc : List Int, acc ≠ [] → (∀ c ∈ cs, InRange acc.length c) →
      lastD (cs.foldl cumStep acc) =
        lastD acc + (cs.countP Option.isSome : Int) := by
  induction cs with
  | nil => intro acc _ _; simp
  | cons c cs ih =>
      intro acc hne hr
      rw [List.foldl_cons, List.countP_cons]
      cases c with
      | none =>
          rw [show cumStep acc none = acc from rfl]
          rw [ih acc hne (fun c hc => hr c (List.mem_cons_of_mem _ hc))]
          simp
      | some ci =>
          have hci := hr (some ci) (List.mem_cons_self _ _) ci rfl
          have hlen : (if ci = -1 then 0 else ci.toNat) < acc.length := by
            rcases hci with h | ⟨h1, h2⟩
            · simp [h]
              exact List.length_pos.mpr hne
            · have : ¬ ci = -1 := by omega
              simp [this]
              exact h2
          rw [show cumStep acc (some ci) =
              addFrom (if ci = -1 then 0 else ci.toNat) acc from rfl]
          rw [ih _ (addFrom_ne_nil _ hne)
              (by rw [length_addFrom]; exact fun c hc => hr c (List.mem_cons_of_mem _ hc))]
          rw [lastD_addFrom acc _ hlen]
          simp [Option.isSome]
          ring

theorem sum_foldl_dailyStep (cs : List (Option Int)) :
    ∀ acc : List Int, (∀ c ∈ cs, InRange acc.length c) →
      (cs.foldl dailyStep acc).sum = acc.sum + (cs.countP countsDaily : Int) := by
  induction cs with
  | nil => intro acc _; simp
  | cons c cs ih =>
      intro acc hr
      rw [List.foldl_cons, List.countP_cons]
      cases c with
      | none =>
          rw [show dailyStep acc none = acc from rfl]
          rw [ih acc (fun c hc => hr c (List.mem_cons_of_mem _ hc))]
          simp [countsDaily]
      | some ci =>
          by_cases hci : ci = -1
          · rw [show dailyStep acc (some ci) = acc by simp [dailyStep, hci]]
            rw [ih acc (fun c hc => hr c (List.mem_cons_of_mem _ hc))]
            simp [countsDaily, hci]
          · have hrange := hr (some ci) (List.mem_cons_self _ _) ci rfl
            have hlt : ci.toNat < acc.length := by
              rcases hrange with h | ⟨h1, h2⟩
              · exact absurd h hci
              · exact h2
            rw [show dailyStep acc (some ci) = incAt ci.toNat acc by
              simp [dailyStep, hci]]
            rw [ih _ (by rw [length_incAt]; exact fun c hc => hr c (List.mem_cons_of_mem _ hc))]
            rw [sum_incAt acc _ hlt]
            simp [countsDaily, hci]
            ring

theorem countP_isSome_split (cs : List (Option Int)) :
    cs.countP Option.isSome =
      cs.countP (fun c => c == some (-1)) + cs.countP countsDaily := by
  induction cs with
  | nil => rfl
  | cons c cs ih =>
      rw [List.countP_cons, List.countP_cons, List.countP_cons]
      cases c with
      | none => simpa [countsDaily] using ih
      | some ci =>
          by_cases h : ci = -1 <;> simp [countsDaily, h, ih] <;> omega

/-! ## Characterizing the classification on a nonempty window -/

/-- The total classification of a timestamp on a nonempty window: the value
`first_idx` of lines 308-316 (`-1`, an in-window day index, or the clamped
last index). -/
def classify1 (w : List (Int × Int)) (ts : Int) : Int :=
  match findDayIdx w ts with
  | some i => (i : Int)
  | none => if ts < (w.headI).1 then -1 else ((w.length - 1 : Nat) : Int)

theorem classifyTs_ok {w : List (Int × Int)} (hw : w ≠ []) (ts : Int) :
    classifyTs w ts = .ok (classify1 w ts) := by
  cases w with
  | nil => exact absurd rfl hw
  | cons p ps =>
      unfold classifyTs classify1
      cases findDayIdx (p :: ps) ts with
      | some i => rfl
      | none => rfl

/-- The per-entry classification produced by `firstExecIdx` on a nonempty
window (line 318's `first_executed_day_idx` value for one pair). -/
def idxOf (w : List (Int × Int)) (e : (Int × Int) × Timeline) : Option Int :=
  (firstExecutedTs e.2).map (classify1 w)

theorem firstExecIdx_eq {w : List (Int × Int)} (hw : w ≠ []) :
    ∀ tl : Timeline, firstExecIdx w tl = .ok ((firstExecutedTs tl).map (classify1 w)) := by
  intro tl
  induction tl with
  | nil => rfl
  | cons o rest ih =>
      obtain ⟨ts, st⟩ := o
      by_cases h : st ∈ EXECUTED_FOR_COUNTS
      · simp [firstExecIdx, firstExecutedTs, h, classifyTs_ok hw ts, Except.map]
      · simpa [firstExecIdx, firstExecutedTs, h] using ih

theorem findDayIdx_lt_length (ts : Int) :
    ∀ (w : List (Int × Int)) (i : Nat), findDayIdx w ts = some i → i < w.length := by
  intro w
  induction w with
  | nil => intro i h; simp [findDayIdx] at h
  | cons p ps ih =>
      obtain ⟨ds, de⟩ := p
      intro i h
      rw [findDayIdx] at h
      split at h
      · simp only [Option.some.injEq] at h
        simp [List.length_cons]
        omega
      · simp only [Option.map_eq_some'] at h
        obtain ⟨j, hj, hji⟩ := h
        have := ih j hj
        simp [List.length_cons]
        omega

theorem classify1_range {w : List (Int × Int)} (hw : w ≠ []) (ts : Int) :
    classify1 w ts = -1 ∨
      (0 ≤ classify1 w ts ∧ (classify1 w ts).toNat < w.length) := by
  have hlen : 0 < w.length := List.length_pos.mpr hw
  rcases hf : findDayIdx w ts with _ | i
  · by_cases hts : ts < (w.headI).1
    · left
      simp [classify1, hf, hts]
    · right
      simp [classify1, hf, hts]
      omega
  · right
    have hi := findDayIdx_lt_length ts w i hf
    simp [classify1, hf]
    omega

theorem mapM_firstExecIdx {w : List (Int × Int)} (hw : w ≠ []) (tm : TestsMap) :
    tm.mapM (fun e => firstExecIdx w e.2) = .ok (tm.map (idxOf w)) := by
  induction tm with
  | nil => rfl
  | cons e tm ih =>
      rw [List.mapM_cons, firstExecIdx_eq hw e.2, ih]
      rfl

/-- The pure daily-presence series of lines 328-332 on a nonempty window. -/
def dailyOf (tm : TestsMap) (w : List (Int × Int)) : List Int :=
  (tm.map (idxOf w)).foldl dailyStep (List.replicate w.length 0)

/-- The pure cumulative series of lines 320-326 (before the clamp) on a
nonempty window. -/
def cumOf (tm : TestsMap) (w : List (Int × Int)) : List Int :=
  (tm.map (idxOf w)).foldl cumStep (List.replicate w.length 0)

theorem compute_on_window_eq {w : List (Int × Int)} (hw : w ≠ []) (tm : TestsMap) :
    compute_series_on_window tm w = .ok (dailyOf tm w, clampMono (cumOf tm w)) := by
  unfold compute_series_on_window
  rw [mapM_firstExecIdx hw tm]
  rfl

theorem nonDecr_replicate (n : Nat) : NonDecr (List.replicate n (0 : Int)) := by
  induction n with
  | zero => exact List.chain'_nil
  | succ n ih =>
      rw [List.replicate_succ]
      refine List.chain'_cons'.mpr ⟨?_, ih⟩
      intro z hz
      cases n with
      | zero => simp at hz
      | succ n =>
          rw [List.replicate_succ, List.head?_cons] at hz
          simp at hz
          omega

theorem lastD_replicate_zero (n : Nat) : lastD (List.replicate n (0 : Int)) = 0 := by
  induction n with
  | zero => rfl
  | succ n ih =>
      rw [List.replicate_succ]
      cases n with
      | zero => rfl
      | succ n =>
          rw [lastD_cons _ (by simp)]
          exact ih

theorem sum_replicate_zero (n : Nat) : (List.replicate n (0 : Int)).sum = 0 := by
  induction n with
  | zero => rfl
  | succ n ih => rw [List.replicate_succ, List.sum_cons, ih]; ring

theorem inRange_idxOf {w : List (Int × Int)} (hw : w ≠ []) (e : (Int × Int) × Timeline) :
    InRange w.length (idxOf w e) := by
  intro ci hci
  unfold idxOf at hci
  rw [Option.map_eq_some'] at hci
  obtain ⟨ts, _, hts⟩ := hci
  subst hts
  exact classify1_range hw ts

theorem nonDecr_cumOf {w : List (Int × Int)} (tm : TestsMap) :
    NonDecr (cumOf tm w) :=
  nonDecr_foldl_cumStep _ _ (nonDecr_replicate w.length)

theorem length_buildWindow (days base : Int) :
    (buildWindow days base).length = days.toNat := by
  rw [buildWindow, List.length_map, List.length_range]

theorem buildWindow_ne_nil {days : Int} (h : 1 ≤ days) (base : Int) :
    buildWindow days base ≠ [] := by
  intro hc
  have := length_buildWindow days base
  rw [hc] at this
  simp at this
  omega

/-! ## The day scan on explicit windows -/

theorem findDayIdx_eq_none {ts : Int} :
    ∀ w : List (Int × Int), (∀ p ∈ w, ¬(p.1 ≤ ts ∧ ts ≤ p.2)) →
      findDayIdx w ts = none := by
  intro w
  induction w with
  | nil => intro _; rfl
  | cons p ps ih =>
      intro h
      obtain ⟨ds, de⟩ := p
      rw [findDayIdx, if_neg (h (ds, de) (List.mem_cons_self _ _)),
        ih (fun q hq => h q (List.mem_cons_of_mem _ hq))]
      rfl

theorem findDayIdx_eq_some {ts : Int} :
    ∀ (w : List (Int × Int)) (i : Nat) (p : Int × Int),
      w[i]? = some p → (p.1 ≤ ts ∧ ts ≤ p.2) →
      (∀ (j : Nat) (q : Int × Int), j < i → w[j]? = some q → ¬(q.1 ≤ ts ∧ ts ≤ q.2)) →
      findDayIdx w ts = some i := by
  intro w
  induction w with
  | nil => intro i p hp _ _; simp at hp
  | cons r rs ih =>
      intro i p hp hin hmin
      obtain ⟨ds, de⟩ := r
      cases i with
      | zero =>
          simp at hp
          subst hp
          rw [findDayIdx, if_pos hin]
      | succ i =>
          have hr : ¬(ds ≤ ts ∧ ts ≤ de) := by
            exact hmin 0 (ds, de) (by omega) (by simp)
          rw [findDayIdx, if_neg hr,
            ih i p (by simpa using hp) hin
              (fun j q hj hq => hmin (j + 1) q (by omega) (by simpa using hq))]
          rfl

theorem buildWindow_getElem? {days : Int} (base : Int) {i : Nat}
    (hi : i < days.toNat) :
    (buildWindow days base)[i]? =
      some (base + 86400 * (i : Int), base + 86400 * (i : Int) + 86399) := by
  simp [buildWindow, hi]

theorem mem_buildWindow {days base : Int} {p : Int × Int} (h : p ∈ buildWindow days base) :
    ∃ i : Nat, i < days.toNat ∧
      p = (base + 86400 * (i : Int), base + 86400 * (i : Int) + 86399) := by
  rw [buildWindow, List.mem_map] at h
  obtain ⟨i, hi, hp⟩ := h
  exact ⟨i, by simpa using hi, hp.symm⟩

theorem findDayIdx_buildWindow_before {days base ts : Int} (hts : ts < base) :
    findDayIdx (buildWindow days base) ts = none := by
  apply findDayIdx_eq_none
  intro p hp
  obtain ⟨i, _, hpe⟩ := mem_buildWindow hp
  subst hpe
  simp only [not_and, not_le]
  intro h1
  exfalso
  have : (0 : Int) ≤ 86400 * (i : Int) := by positivity
  omega

theorem findDayIdx_buildWindow_after {days base ts : Int}
    (hts : base + 86400 * (days - 1) + 86399 < ts) :
    findDayIdx (buildWindow days base) ts = none := by
  apply findDayIdx_eq_none
  intro p hp
  obtain ⟨i, hi, hpe⟩ := mem_buildWindow hp
  subst hpe
  simp only [not_and, not_le]
  intro _
  have h1 : (i : Int) ≤ days - 1 := by omega
  have h2 : 86400 * (i : Int) ≤ 86400 * (days - 1) := by
    apply mul_le_mul_of_nonneg_left h1
    norm_num
  omega

theorem findDayIdx_buildWindow_inWindow {days base ts : Int} (hdays : 1 ≤ days)
    (h1 : base ≤ ts) (h2 : ts ≤ base + 86400 * (days - 1) + 86399) :
    findDayIdx (buildWindow days base) ts = some ((ts - base) / 86400).toNat ∧
      ((((ts - base) / 86400).toNat : Int) = (ts - base) / 86400 ∧
        ((ts - base) / 86400).toNat < days.toNat ∧
        base + 86400 * (((ts - base) / 86400).toNat : Int) ≤ ts ∧
        ts ≤ base + 86400 * (((ts - base) / 86400).toNat : Int) + 86399) := by
  set d : Int := ts - base with hd
  have hd0 : 0 ≤ d := by omega
  set q : Int := d / 86400 with hq
  have hq0 : 0 ≤ q := Int.ediv_nonneg hd0 (by norm_num)
  have hdiv : 86400 * q + d % 86400 = d := Int.ediv_add_emod d 86400
  have hr0 : 0 ≤ d % 86400 := Int.emod_nonneg d (by norm_num)
  have hr1 : d % 86400 < 86400 := Int.emod_lt_of_pos d (by norm_num)
  have hqd : 86400 * q < 86400 * days := by omega
  have hqlt : q < days := by omega
  have htn : ((q.toNat : Int)) = q := Int.toNat_of_nonneg hq0
  have hlt : q.toNat < days.toNat := by omega
  have hbounds : base + 86400 * ((q.toNat : Int)) ≤ ts ∧
      ts ≤ base + 86400 * ((q.toNat : Int)) + 86399 := by
    rw [htn]
    omega
  refine ⟨?_, htn, hlt, hbounds.1, hbounds.2⟩
  apply findDayIdx_eq_some (buildWindow days base) q.toNat _
    (buildWindow_getElem? base hlt)
  · exact hbounds
  · intro j p hj hp
    rw [buildWindow_getElem? base (by omega)] at hp
    have hpe : p = (base + 86400 * (j : Int), base + 86400 * (j : Int) + 86399) := by
      simpa using hp.symm
    subst hpe
    simp only [not_and, not_le]
    intro _
    have hji : (j : Int) + 1 ≤ q := by omega
    have : 86400 * ((j : Int) + 1) ≤ 86400 * q := by
      apply mul_le_mul_of_nonneg_left hji
      norm_num
    omega

/-! ## Classification on the built window -/

theorem headI_buildWindow {days : Int} (hdays : 1 ≤ days) (base : Int) :
    (buildWindow days base).headI = (base, base + 86399) := by
  have h0 : 0 < days.toNat := by omega
  cases hw : buildWindow days base with
  | nil => exact absurd hw (buildWindow_ne_nil hdays base)
  | cons p ps =>
      have hp : (buildWindow days base)[0]? = some p := by rw [hw]; simp
      rw [buildWindow_getElem? base h0] at hp
      simp only [Option.some.injEq] at hp
      simp only [List.headI]
      rw [← hp]
      norm_num

theorem classify1_buildWindow_before {days base ts : Int} (hdays : 1 ≤ days)
    (hts : ts < base) :
    classify1 (buildWindow days base) ts = -1 := by
  simp [classify1, findDayIdx_buildWindow_before hts, headI_buildWindow hdays, hts]

theorem classify1_buildWindow_after {days base ts : Int} (hdays : 1 ≤ days)
    (hts : base + 86400 * (days - 1) + 86399 < ts) :
    classify1 (buildWindow days base) ts = ((days.toNat - 1 : Nat) : Int) := by
  have hmul : (0 : Int) ≤ 86400 * (days - 1) := by
    apply mul_nonneg <;> omega
  have hnot : ¬ ts < base := by omega
  simp [classify1, findDayIdx_buildWindow_after hts, headI_buildWindow hdays, hnot,
    length_buildWindow]

theorem classify1_buildWindow_in {days base ts : Int} (hdays : 1 ≤ days)
    (h1 : base ≤ ts) (h2 : ts ≤ base + 86400 * (days - 1) + 86399) :
    classify1 (buildWindow days base) ts = (((ts - base) / 86400).toNat : Int) := by
  obtain ⟨hf, _⟩ := findDayIdx_buildWindow_inWindow hdays h1 h2
  simp [classify1, hf]

/-! ## Shape facts for the computed series -/

theorem getLast?_eq_lastD {l : List Int} (h : l ≠ []) :
    l.getLast? = some (lastD l) := by
  cases hl : l.getLast? with
  | none =>
      rw [List.getLast?_eq_none_iff] at hl
      exact absurd hl h
  | some x => simp [lastD, hl]

theorem cumOf_ne_nil {w : List (Int × Int)} (hw : w ≠ []) (tm : TestsMap) :
    cumOf tm w ≠ [] := by
  intro hc
  have h1 : (cumOf tm w).length = w.length := by
    unfold cumOf
    rw [length_foldl_cumStep, List.length_replicate]
  rw [hc] at h1
  have := List.length_pos.mpr hw
  simp at h1
  omega

theorem replicate_zero_ne_nil {n : Nat} (h : 0 < n) :
    List.replicate n (0 : Int) ≠ [] := by
  intro hc
  have := congrArg List.length hc
  simp at this
  omega

theorem inRange_map_idxOf {w : List (Int × Int)} (hw : w ≠ []) (tm : TestsMap) :
    ∀ c ∈ tm.map (idxOf w), InRange (List.replicate w.length (0 : Int)).length c := by
  intro c hc
  rw [List.length_replicate]
  rw [List.mem_map] at hc
  obtain ⟨e, _, he⟩ := hc
  exact he ▸ inRange_idxOf hw e

/-- C1: for every tests map and every `days >= 1`, the cumulative series
returned by `compute_executed_series` is non-decreasing, and it remains
non-decreasing after the reconciliation adjustment of `main`
(lines 657-665). -/
theorem c1_cumulative_monotone (tm : TestsMap) (days base T : Int)
    (hdays : 1 ≤ days) :
    ∃ d c, compute_executed_series tm days base = .ok (d, c) ∧
      NonDecr c ∧ NonDecr (reconcile_cumulative c T).1 := by
  have hw := buildWindow_ne_nil hdays base
  refine ⟨dailyOf tm (buildWindow days base),
    clampMono (cumOf tm (buildWindow days base)),
    compute_on_window_eq hw tm, nonDecr_clampMono _, nonDecr_clampMono _⟩

/-- C1 witness: the monotonicity theorem applied at a concrete input. -/
theorem c1_cumulative_monotone_witness :
    ∃ d c, compute_executed_series
        [((1, 1), [(50, 1)]), ((1, 3), [(-7, 1)]), ((1, 4), [(999999, 5)])] 3 0 =
        .ok (d, c) ∧ NonDecr c ∧ NonDecr (reconcile_cumulative c 10).1 :=
  c1_cumulative_monotone _ 3 0 10 (by norm_num)

/-- C2: prior to any reconciliation, the last element of the cumulative
series equals the sum of the daily buckets plus the number of pairs whose
first executed observation was classified before-window. -/
theorem c2_conservation (tm : TestsMap) (days base : Int) (hdays : 1 ≤ days) :
    ∃ d c, compute_executed_series tm days base = .ok (d, c) ∧
      c.getLast? = some (d.sum + (before_window_count tm days base : Int)) := by
  have hw : buildWindow days base ≠ [] := buildWindow_ne_nil hdays base
  refine ⟨dailyOf tm (buildWindow days base),
    clampMono (cumOf tm (buildWindow days base)),
    compute_on_window_eq hw tm, ?_⟩
  rw [clampMono_eq_self (nonDecr_cumOf tm)]
  have hNpos : 0 < (buildWindow days base).length := List.length_pos.mpr hw
  have hlast := lastD_foldl_cumStep
    (tm.map (idxOf (buildWindow days base)))
    (List.replicate (buildWindow days base).length 0)
    (replicate_zero_ne_nil hNpos) (inRange_map_idxOf hw tm)
  rw [lastD_replicate_zero] at hlast
  have hsum := sum_foldl_dailyStep
    (tm.map (idxOf (buildWindow days base)))
    (List.replicate (buildWindow days base).length 0)
    (inRange_map_idxOf hw tm)
  rw [sum_replicate_zero] at hsum
  have hbefore : before_window_count tm days base =
      (tm.map (idxOf (buildWindow days base))).countP (fun c => c == some (-1)) := by
    unfold before_window_count
    rw [List.countP_map]
    apply List.countP_congr
    intro e _
    have hsame : isBeforeWindow (buildWindow days base) e.2 =
        (idxOf (buildWindow days base) e == some (-1)) := by
      rw [isBeforeWindow, firstExecIdx_eq hw e.2]
      unfold idxOf
      cases firstExecutedTs e.2 with
      | none => rfl
      | some ts => rfl
    simp only [Function.comp_apply, hsame]
  rw [getLast?_eq_lastD (cumOf_ne_nil hw tm)]
  have hsplit := countP_isSome_split (tm.map (idxOf (buildWindow days base)))
  rw [show cumOf tm (buildWindow days base) =
    (tm.map (idxOf (buildWindow days base))).foldl cumStep
      (List.replicate (buildWindow days base).length 0) from rfl, hlast]
  rw [show dailyOf tm (buildWindow days base) =
    (tm.map (idxOf (buildWindow days base))).foldl dailyStep
      (List.replicate (buildWindow days base).length 0) from rfl, hsum]
  rw [hbefore]
  congr 1
  push_cast [hsplit]
  ring

/-- C2 witness: conservation at a concrete input with one in-window, one
before-window and one clamped after-window pair. -/
theorem c2_conservation_witness :
    ∃ d c, compute_executed_series
        [((1, 1), [(50, 1)]), ((1, 3), [(-7, 1)]), ((1, 4), [(999999, 5)])] 3 0 =
        .ok (d, c) ∧
      c.getLast? = some (d.sum +
        (before_window_count
          [((1, 1), [(50, 1)]), ((1, 3), [(-7, 1)]), ((1, 4), [(999999, 5)])] 3 0 : Int)) :=
  c2_conservation _ 3 0 (by norm_num)

/-! ## Reconciliation lemmas -/

theorem nonDecr_map_add {l : List Int} (h : NonDecr l) (d : Int) :
    NonDecr (l.map (· + d)) := by
  unfold NonDecr at *
  rw [List.chain'_map]
  exact List.Chain'.imp (fun a b hab => by omega) h

theorem lastD_map_add {l : List Int} (h : l ≠ []) (d : Int) :
    lastD (l.map (· + d)) = lastD l + d := by
  unfold lastD
  rw [List.getLast?_map]
  cases hl : l.getLast? with
  | none =>
      rw [List.getLast?_eq_none_iff] at hl
      exact absurd hl h
  | some x => simp

theorem map_add_zero_self (l : List Int) : l.map (· + 0) = l := by
  simp

/-- C4: the reconciliation step computes `deficit = max(0, T - last)` and,
when positive, adds it to every element, so each returned element is the
original plus the deficit and the series stays non-decreasing. -/
theorem c4_reconcile_uniform_add (cum : List Int) (T : Int) (h : NonDecr cum) :
    (reconcile_cumulative cum T).2 = max 0 (T - lastD cum) ∧
    (reconcile_cumulative cum T).1 = cum.map (· + max 0 (T - lastD cum)) ∧
    NonDecr (reconcile_cumulative cum T).1 := by
  have h1 : (reconcile_cumulative cum T).1 =
      clampMono (if 0 < max 0 (T - lastD cum)
        then cum.map (· + max 0 (T - lastD cum)) else cum) := rfl
  refine ⟨rfl, ?_, ?_⟩
  · rw [h1]
    by_cases hpos : 0 < max 0 (T - lastD cum)
    · rw [if_pos hpos]
      exact clampMono_eq_self (nonDecr_map_add h _)
    · rw [if_neg hpos]
      have hm0 : max 0 (T - lastD cum) = 0 := by omega
      rw [clampMono_eq_self h, hm0, map_add_zero_self]
  · rw [h1]
    exact nonDecr_clampMono _

/-- C4 witness: the spec scenario `reconcile(last=7, T=10)` lifts every
element by exactly 3. -/
theorem c4_reconcile_uniform_add_witness :
    NonDecr [1, 2, 7] ∧
    ((reconcile_cumulative [1, 2, 7] 10).2 = max 0 (10 - lastD [1, 2, 7]) ∧
     (reconcile_cumulative [1, 2, 7] 10).1 =
       List.map (· + max 0 (10 - lastD [1, 2, 7])) [1, 2, 7] ∧
     NonDecr (reconcile_cumulative [1, 2, 7] 10).1) :=
  ⟨by norm_num [NonDecr, List.chain'_cons], c4_reconcile_uniform_add [1, 2, 7] 10
    (by norm_num [NonDecr, List.chain'_cons])⟩

/-- C8: reconciling twice with the same authoritative total yields the same
series as reconciling once; on a nonempty series the second deficit
recomputes to 0. -/
theorem c8_reconcile_idempotent (cum : List Int) (T : Int) :
    (reconcile_cumulative (reconcile_cumulative cum T).1 T).1 =
      (reconcile_cumulative cum T).1 ∧
    (cum ≠ [] → (reconcile_cumulative (reconcile_cumulative cum T).1 T).2 = 0) := by
  have h1 : (reconcile_cumulative cum T).1 =
      clampMono (if 0 < max 0 (T - lastD cum)
        then cum.map (· + max 0 (T - lastD cum)) else cum) := rfl
  have hmono : NonDecr (reconcile_cumulative cum T).1 := by
    rw [h1]; exact nonDecr_clampMono _
  by_cases hcum : cum = []
  · subst hcum
    have hr1 : (reconcile_cumulative ([] : List Int) T).1 = [] := by
      rw [h1]
      split <;> rfl
    refine ⟨?_, fun hne => absurd rfl hne⟩
    rw [hr1]
    exact hr1
  · have hT : T ≤ lastD (reconcile_cumulative cum T).1 := by
      by_cases hpos : 0 < max 0 (T - lastD cum)
      · have hmax : max 0 (T - lastD cum) = T - lastD cum := by omega
        have hmapne : cum.map (· + max 0 (T - lastD cum)) ≠ [] := by
          simpa using hcum
        have hl : lastD (cum.map (· + max 0 (T - lastD cum))) = T := by
          rw [lastD_map_add hcum, hmax]
          ring
        rw [h1, if_pos hpos]
        calc T = lastD (cum.map (· + max 0 (T - lastD cum))) := hl.symm
          _ ≤ lastD (clampMono (cum.map (· + max 0 (T - lastD cum)))) :=
              lastD_clampMono_ge hmapne
      · have hle : T ≤ lastD cum := by omega
        rw [h1, if_neg hpos]
        calc T ≤ lastD cum := hle
          _ ≤ lastD (clampMono cum) := lastD_clampMono_ge hcum
    have hd2 : max 0 (T - lastD (reconcile_cumulative cum T).1) = 0 := by omega
    constructor
    · have h2 : (reconcile_cumulative (reconcile_cumulative cum T).1 T).1 =
          clampMono
            (if 0 < max 0 (T - lastD (reconcile_cumulative cum T).1)
             then (reconcile_cumulative cum T).1.map
               (· + max 0 (T - lastD (reconcile_cumulative cum T).1))
             else (reconcile_cumulative cum T).1) := rfl
      rw [h2, hd2]
      simp only [lt_irrefl, if_false]
      exact clampMono_eq_self hmono
    · intro _
      exact hd2

/-- C8 witness: idempotence at a concrete series, including the
zero-second-deficit conjunct. -/
theorem c8_reconcile_idempotent_witness :
    (reconcile_cumulative (reconcile_cumulative [1, 2, 7] 10).1 10).1 =
      (reconcile_cumulative [1, 2, 7] 10).1 ∧
    (reconcile_cumulative (reconcile_cumulative [1, 2, 7] 10).1 10).2 = 0 :=
  ⟨(c8_reconcile_idempotent [1, 2, 7] 10).1,
   (c8_reconcile_idempotent [1, 2, 7] 10).2 (by decide)⟩

/-! ## Appending one pair to the tests map -/

theorem dailyOf_append (tm : TestsMap) (e : (Int × Int) × Timeline)
    (w : List (Int × Int)) :
    dailyOf (tm ++ [e]) w = dailyStep (dailyOf tm w) (idxOf w e) := by
  unfold dailyOf
  rw [List.map_append, List.foldl_append]
  rfl

theorem cumOf_append (tm : TestsMap) (e : (Int × Int) × Timeline)
    (w : List (Int × Int)) :
    cumOf (tm ++ [e]) w = cumStep (cumOf tm w) (idxOf w e) := by
  unfold cumOf
  rw [List.map_append, List.foldl_append]
  rfl

theorem length_dailyOf (tm : TestsMap) (w : List (Int × Int)) :
    (dailyOf tm w).length = w.length := by
  unfold dailyOf
  rw [length_foldl_dailyStep, List.length_replicate]

theorem computeES_ok_elim {tm : TestsMap} {days base : Int} {d c : List Int}
    (hdays : 1 ≤ days)
    (h : compute_executed_series tm days base = .ok (d, c)) :
    d = dailyOf tm (buildWindow days base) ∧
    c = clampMono (cumOf tm (buildWindow days base)) := by
  have hw := buildWindow_ne_nil hdays base
  rw [compute_executed_series, compute_on_window_eq hw] at h
  simp only [Except.ok.injEq, Prod.mk.injEq] at h
  exact ⟨h.1.symm, h.2.symm⟩

theorem computeES_append_effect {days base : Int} (hdays : 1 ≤ days)
    (key : Int × Int) (tl : Timeline)
    {tm : TestsMap} {d1 c1 d2 c2 : List Int}
    (h1 : compute_executed_series tm days base = .ok (d1, c1))
    (h2 : compute_executed_series (tm ++ [(key, tl)]) days base = .ok (d2, c2)) :
    d2 = dailyStep d1 (idxOf (buildWindow days base) (key, tl)) ∧
    c2 = clampMono (cumStep (cumOf tm (buildWindow days base))
        (idxOf (buildWindow days base) (key, tl))) ∧
    c1 = cumOf tm (buildWindow days base) := by
  obtain ⟨hd1, hc1⟩ := computeES_ok_elim hdays h1
  obtain ⟨hd2, hc2⟩ := computeES_ok_elim hdays h2
  rw [dailyOf_append] at hd2
  rw [cumOf_append] at hc2
  refine ⟨by rw [hd2, hd1], hc2, ?_⟩
  rw [hc1, clampMono_eq_self (nonDecr_cumOf tm)]

theorem dailyStep_natCast (acc : List Int) (n : Nat) :
    dailyStep acc (some ((n : Nat) : Int)) = incAt n acc := by
  have hne : ¬ (((n : Nat) : Int) = -1) := by omega
  simp only [dailyStep]
  rw [if_neg hne, Int.toNat_natCast]

/-- C3: every pair with an executed observation is classified into exactly
one of in-window (some day `i` whose inclusive bounds contain the first
executed timestamp), before-window (`ts < utc_start[0]`, classified `-1`,
raising the cumulative series everywhere but entering no daily bucket), or
after-window (`ts > utc_end[N-1]`, clamped to the last day index and counted
in the last daily bucket). -/
theorem c3_classification_trichotomy (days base : Int) (hdays : 1 ≤ days)
    (key : Int × Int) (tl : Timeline) (ts : Int)
    (hts : firstExecutedTs tl = some ts) :
    ∃ c : Int,
      firstExecIdx (buildWindow days base) tl = .ok (some c) ∧
      (if ts < base then
        c = -1 ∧
        ∀ tm d1 c1 d2 c2,
          compute_executed_series tm days base = .ok (d1, c1) →
          compute_executed_series (tm ++ [(key, tl)]) days base = .ok (d2, c2) →
          d2 = d1 ∧ c2 = c1.map (· + 1)
      else if base + 86400 * (days - 1) + 86399 < ts then
        c = ((days.toNat - 1 : Nat) : Int) ∧
        ∀ tm d1 c1 d2 c2,
          compute_executed_series tm days base = .ok (d1, c1) →
          compute_executed_series (tm ++ [(key, tl)]) days base = .ok (d2, c2) →
          d2 = incAt (days.toNat - 1) d1
      else
        ∃ i : Nat, i < days.toNat ∧
          base + 86400 * (i : Int) ≤ ts ∧ ts ≤ base + 86400 * (i : Int) + 86399 ∧
          c = (i : Int) ∧
          ∀ tm d1 c1 d2 c2,
            compute_executed_series tm days base = .ok (d1, c1) →
            compute_executed_series (tm ++ [(key, tl)]) days base = .ok (d2, c2) →
            d2 = incAt i d1) := by
  have hw := buildWindow_ne_nil hdays base
  have hidx : idxOf (buildWindow days base) (key, tl) =
      some (classify1 (buildWindow days base) ts) := by
    unfold idxOf
    rw [show ((key, tl) : (Int × Int) × Timeline).2 = tl from rfl, hts]
    rfl
  have hfe : firstExecIdx (buildWindow days base) tl =
      .ok (some (classify1 (buildWindow days base) ts)) := by
    rw [firstExecIdx_eq hw tl, hts]
    rfl
  refine ⟨classify1 (buildWindow days base) ts, hfe, ?_⟩
  split_ifs with hbefore hafter
  · have hc := classify1_buildWindow_before hdays hbefore
    refine ⟨hc, ?_⟩
    intro tm d1 c1 d2 c2 h1 h2
    obtain ⟨hd2, hc2, hc1⟩ := computeES_append_effect hdays key tl h1 h2
    rw [hidx, hc] at hd2 hc2
    constructor
    · rw [hd2]
      rfl
    · rw [hc2, show cumStep (cumOf tm (buildWindow days base)) (some (-1)) =
          addFrom 0 (cumOf tm (buildWindow days base)) from rfl,
        clampMono_eq_self (nonDecr_addFrom _ 0 (nonDecr_cumOf tm)),
        addFrom_zero_eq_map, hc1]
  · have hc := classify1_buildWindow_after hdays hafter
    refine ⟨hc, ?_⟩
    intro tm d1 c1 d2 c2 h1 h2
    obtain ⟨hd2, _, _⟩ := computeES_append_effect hdays key tl h1 h2
    rw [hidx, hc] at hd2
    rw [hd2, dailyStep_natCast]
  · have h1b : base ≤ ts := by omega
    have h2b : ts ≤ base + 86400 * (days - 1) + 86399 := by omega
    obtain ⟨hf, htn, hlt, hb1, hb2⟩ := findDayIdx_buildWindow_inWindow hdays h1b h2b
    have hc : classify1 (buildWindow days base) ts =
        ((((ts - base) / 86400).toNat : Nat) : Int) := by
      simp [classify1, hf]
    refine ⟨((ts - base) / 86400).toNat, hlt, hb1, hb2, hc, ?_⟩
    intro tm d1 c1 d2 c2 hh1 hh2
    obtain ⟨hd2, _, _⟩ := computeES_append_effect hdays key tl hh1 hh2
    rw [hidx, hc] at hd2
    rw [hd2, dailyStep_natCast]

/-- C3 witness: the spec scenario of an observation at `timestamp = -50`
with window start 0 (before-window), applied through the trichotomy
theorem. -/
theorem c3_classification_trichotomy_witness :
    firstExecutedTs [((-50 : Int), 1)] = some (-50) ∧
    (∃ c : Int,
      firstExecIdx (buildWindow 3 0) [((-50 : Int), 1)] = .ok (some c) ∧
      (if (-50 : Int) < 0 then
        c = -1 ∧
        ∀ tm d1 c1 d2 c2,
          compute_executed_series tm 3 0 = .ok (d1, c1) →
          compute_executed_series (tm ++ [((1, 1), [((-50 : Int), 1)])]) 3 0 = .ok (d2, c2) →
          d2 = d1 ∧ c2 = c1.map (· + 1)
      else if (0 : Int) + 86400 * (3 - 1) + 86399 < -50 then
        c = (((3 : Int).toNat - 1 : Nat) : Int) ∧
        ∀ tm d1 c1 d2 c2,
          compute_executed_series tm 3 0 = .ok (d1, c1) →
          compute_executed_series (tm ++ [((1, 1), [((-50 : Int), 1)])]) 3 0 = .ok (d2, c2) →
          d2 = incAt ((3 : Int).toNat - 1) d1
      else
        ∃ i : Nat, i < (3 : Int).toNat ∧
          (0 : Int) + 86400 * (i : Int) ≤ -50 ∧ (-50 : Int) ≤ 0 + 86400 * (i : Int) + 86399 ∧
          c = (i : Int) ∧
          ∀ tm d1 c1 d2 c2,
            compute_executed_series tm 3 0 = .ok (d1, c1) →
            compute_executed_series (tm ++ [((1, 1), [((-50 : Int), 1)])]) 3 0 = .ok (d2, c2) →
            d2 = incAt i d1)) :=
  ⟨rfl, c3_classification_trichotomy 3 0 (by norm_num) (1, 1) [((-50 : Int), 1)] (-50) rfl⟩

/-- C5: a pair whose first executed observation lies exactly on
`utc_end[i]` for an in-window day `i` is classified to day `i` and counted
in day `i`'s daily bucket, not day `i+1`'s. -/
theorem c5_boundary_day_end (days base : Int) (i : Nat) (hdays : 1 ≤ days)
    (hi : i + 1 < days.toNat) (key : Int × Int) (tl : Timeline)
    (hts : firstExecutedTs tl = some (base + 86400 * (i : Int) + 86399)) :
    firstExecIdx (buildWindow days base) tl = .ok (some (i : Int)) ∧
    ∀ tm d1 c1 d2 c2,
      compute_executed_series tm days base = .ok (d1, c1) →
      compute_executed_series (tm ++ [(key, tl)]) days base = .ok (d2, c2) →
      d2 = incAt i d1 ∧
      d2[i]? = d1[i]?.map (· + 1) ∧
      d2[i + 1]? = d1[i + 1]? := by
  have hw := buildWindow_ne_nil hdays base
  set ts : Int := base + 86400 * (i : Int) + 86399 with htsdef
  have hf : findDayIdx (buildWindow days base) ts = some i := by
    apply findDayIdx_eq_some (buildWindow days base) i _
      (buildWindow_getElem? base (by omega))
    · constructor
      · simp only []
        omega
      · omega
    · intro j q hj hq
      rw [buildWindow_getElem? base (by omega)] at hq
      have hqe : q = (base + 86400 * (j : Int), base + 86400 * (j : Int) + 86399) := by
        simpa using hq.symm
      subst hqe
      simp only [not_and, not_le]
      intro _
      have hcast : (j : Int) < (i : Int) := by exact_mod_cast hj
      omega
  have hc : classify1 (buildWindow days base) ts = (i : Int) := by
    simp [classify1, hf]
  have hidx : idxOf (buildWindow days base) (key, tl) = some ((i : Nat) : Int) := by
    unfold idxOf
    rw [show ((key, tl) : (Int × Int) × Timeline).2 = tl from rfl, hts]
    simp [hc]
  constructor
  · rw [firstExecIdx_eq hw tl, hts]
    simp [hc]
  · intro tm d1 c1 d2 c2 h1 h2
    obtain ⟨hd2, _, _⟩ := computeES_append_effect hdays key tl h1 h2
    rw [hidx] at hd2
    have hd2i : d2 = incAt i d1 := by
      rw [hd2, dailyStep_natCast]
    have hlen : i < d1.length := by
      obtain ⟨hd1, _⟩ := computeES_ok_elim hdays h1
      rw [hd1, length_dailyOf, length_buildWindow]
      omega
    exact ⟨hd2i, by rw [hd2i]; exact getElem?_incAt_self d1 i hlen,
      by rw [hd2i]; exact getElem?_incAt_ne d1 i (i + 1) (by omega)⟩

/-- C5 witness: with a 2-day window anchored at 0, a first executed
observation at exactly `utc_end[0] = 86399` lands in day 0's bucket and
leaves day 1's unchanged. -/
theorem c5_boundary_day_end_witness :
    firstExecutedTs [((86399 : Int), 1)] = some ((0 : Int) + 86400 * ((0 : Nat) : Int) + 86399) ∧
    (firstExecIdx (buildWindow 2 0) [((86399 : Int), 1)] = .ok (some ((0 : Nat) : Int)) ∧
    ∀ tm d1 c1 d2 c2,
      compute_executed_series tm 2 0 = .ok (d1, c1) →
      compute_executed_series (tm ++ [((1, 1), [((86399 : Int), 1)])]) 2 0 = .ok (d2, c2) →
      d2 = incAt 0 d1 ∧
      d2[(0 : Nat)]? = d1[(0 : Nat)]?.map (· + 1) ∧
      d2[(0 : Nat) + 1]? = d1[(0 : Nat) + 1]?) :=
  ⟨by decide, c5_boundary_day_end 2 0 0 (by norm_num) (by norm_num) (1, 1)
    [((86399 : Int), 1)] (by decide)⟩

/-! ## Summary-builder lemmas -/

theorem buildRowFor_counters (tm : TestsMap) (metaOf : Int → Option RunMeta)
    (rid : Int) (m : RunMeta) (c : Counters)
    (hm : metaOf rid = some m) (hc : m.counters = some c) :
    (buildRowFor tm metaOf rid).planned =
      c.passed + c.blocked + c.untested + c.retest + c.failed ∧
    (buildRowFor tm metaOf rid).executed = c.passed + c.failed ∧
    (buildRowFor tm metaOf rid).not_executed = c.blocked + c.untested ∧
    (buildRowFor tm metaOf rid).passed = c.passed ∧
    (buildRowFor tm metaOf rid).failed = c.failed := by
  refine ⟨?_, ?_, ?_, ?_, ?_⟩ <;> simp [buildRowFor, hm, hc]

theorem mem_build_rows (tm : TestsMap) (metaOf : Int → Option RunMeta)
    (runIds : List Int) (rid : Int) (hmem : rid ∈ run_ids_all tm runIds) :
    buildRowFor tm metaOf rid ∈ (build_rows_and_grand tm metaOf runIds).1 := by
  show buildRowFor tm metaOf rid ∈
    List.insertionSort (fun a b => a.run_id ≤ b.run_id)
      ((run_ids_all tm runIds).map (buildRowFor tm metaOf))
  rw [List.Perm.mem_iff (List.perm_insertionSort _ _)]
  exact List.mem_map_of_mem _ hmem

/-- The number of observed test ids of a run whose most recent observation
has the given status. -/
def countLastStatus (tm : TestsMap) (rid : Int) (st : Int) : Nat :=
  (perRunTestIds tm rid).countP (fun tid => decide (lastStatusOf tm rid tid = some st))

theorem tally_spec (tm : TestsMap) (rid : Int) :
    ∀ (l : List Int) (acc : Int × Int × Int),
      l.foldl (tallyStep tm rid) acc =
        (acc.1 + (l.countP (fun tid => decide (lastStatusOf tm rid tid = some 1)) : Int),
         acc.2.1 + (l.countP (fun tid => decide (lastStatusOf tm rid tid = some 5)) : Int),
         acc.2.2 + (l.countP (fun tid => decide (lastStatusOf tm rid tid = some 1)) : Int)
                 + (l.countP (fun tid => decide (lastStatusOf tm rid tid = some 5)) : Int)) := by
  intro l
  induction l with
  | nil => intro acc; simp
  | cons t l ih =>
      intro acc
      rw [List.foldl_cons, ih, List.countP_cons, List.countP_cons]
      by_cases h1 : lastStatusOf tm rid t = some 1
      · have e1 : decide (lastStatusOf tm rid t = some 1) = true := by
          rw [h1]; decide
        have e5 : decide (lastStatusOf tm rid t = some 5) = false := by
          rw [h1]; decide
        rw [show tallyStep tm rid acc t = (acc.1 + 1, acc.2.1, acc.2.2 + 1) by
          simp [tallyStep, h1]]
        simp only [e1, e5, Prod.mk.injEq, Bool.false_eq_true, if_true, if_false]
        push_cast
        omega
      · by_cases h5 : lastStatusOf tm rid t = some 5
        · have e1 : decide (lastStatusOf tm rid t = some 1) = false := by
            rw [h5]; decide
          have e5 : decide (lastStatusOf tm rid t = some 5) = true := by
            rw [h5]; decide
          rw [show tallyStep tm rid acc t = (acc.1, acc.2.1 + 1, acc.2.2 + 1) by
            simp [tallyStep, h1, h5]]
          simp only [e1, e5, Prod.mk.injEq, Bool.false_eq_true, if_true, if_false]
          push_cast
          omega
        · have e1 : decide (lastStatusOf tm rid t = some 1) = false := by
            simp [h1]
          have e5 : decide (lastStatusOf tm rid t = some 5) = false := by
            simp [h5]
          rw [show tallyStep tm rid acc t = acc by simp [tallyStep, h1, h5]]
          simp only [e1, e5, Prod.mk.injEq, Bool.false_eq_true, if_false]
          push_cast
          omega

theorem buildRowFor_none_eq (tm : TestsMap) (metaOf : Int → Option RunMeta)
    (rid : Int) (hm : metaOf rid = none) :
    buildRowFor tm metaOf rid =
      { run_id := rid, run_label := "Run " ++ toString rid, run_name := none,
        configuration := none,
        planned := ((perRunTestIds tm rid).length : Int),
        executed := (tallyFallback tm rid).2.2,
        not_executed := ((perRunTestIds tm rid).length : Int) - (tallyFallback tm rid).2.2,
        passed := (tallyFallback tm rid).1,
        failed := (tallyFallback tm rid).2.1 } := by
  unfold buildRowFor
  rw [hm]
  rfl

theorem buildRowFor_no_meta (tm : TestsMap) (metaOf : Int → Option RunMeta)
    (rid : Int) (hm : metaOf rid = none) :
    (buildRowFor tm metaOf rid).planned = ((perRunTestIds tm rid).length : Int) ∧
    (buildRowFor tm metaOf rid).passed = (countLastStatus tm rid 1 : Int) ∧
    (buildRowFor tm metaOf rid).failed = (countLastStatus tm rid 5 : Int) ∧
    (buildRowFor tm metaOf rid).executed =
      (countLastStatus tm rid 1 : Int) + (countLastStatus tm rid 5 : Int) ∧
    (buildRowFor tm metaOf rid).not_executed =
      ((perRunTestIds tm rid).length : Int) -
        ((countLastStatus tm rid 1 : Int) + (countLastStatus tm rid 5 : Int)) := by
  have ht := tally_spec tm rid (perRunTestIds tm rid) (0, 0, 0)
  have hp : (tallyFallback tm rid).1 = (countLastStatus tm rid 1 : Int) := by
    rw [tallyFallback, ht, countLastStatus]
    norm_num
  have hf : (tallyFallback tm rid).2.1 = (countLastStatus tm rid 5 : Int) := by
    rw [tallyFallback, ht, countLastStatus]
    norm_num
  have he : (tallyFallback tm rid).2.2 =
      (countLastStatus tm rid 1 : Int) + (countLastStatus tm rid 5 : Int) := by
    rw [tallyFallback, ht, countLastStatus, countLastStatus]
    norm_num
  rw [buildRowFor_none_eq tm metaOf rid hm]
  exact ⟨rfl, hp, hf, he, by rw [show
    ({ run_id := rid, run_label := "Run " ++ toString rid, run_name := none,
       configuration := none,
       planned := ((perRunTestIds tm rid).length : Int),
       executed := (tallyFallback tm rid).2.2,
       not_executed := ((perRunTestIds tm rid).length : Int) - (tallyFallback tm rid).2.2,
       passed := (tallyFallback tm rid).1,
       failed := (tallyFallback tm rid).2.1 } : Row).not_executed =
    ((perRunTestIds tm rid).length : Int) - (tallyFallback tm rid).2.2 from rfl, he]⟩

/-- C6: when the fetched run metadata yields usable integer counters, the
row prefers them: `planned = passed+blocked+untested+retest+failed`,
`executed = passed+failed`, `not_executed = blocked+untested`, regardless of
the timelines. -/
theorem c6_metadata_preferred (tm : TestsMap) (metaOf : Int → Option RunMeta)
    (runIds : List Int) (rid : Int) (m : RunMeta) (c : Counters)
    (hm : metaOf rid = some m) (hc : m.counters = some c) :
    (buildRowFor tm metaOf rid).planned =
      c.passed + c.blocked + c.untested + c.retest + c.failed ∧
    (buildRowFor tm metaOf rid).executed = c.passed + c.failed ∧
    (buildRowFor tm metaOf rid).not_executed = c.blocked + c.untested ∧
    (buildRowFor tm metaOf rid).passed = c.passed ∧
    (buildRowFor tm metaOf rid).failed = c.failed ∧
    (rid ∈ run_ids_all tm runIds →
      buildRowFor tm metaOf rid ∈ (build_rows_and_grand tm metaOf runIds).1) := by
  obtain ⟨h1, h2, h3, h4, h5⟩ := buildRowFor_counters tm metaOf rid m c hm hc
  exact ⟨h1, h2, h3, h4, h5, mem_build_rows tm metaOf runIds rid⟩

/-- C6 witness: the spec scenario `{passed:5, failed:2, blocked:1,
untested:0, retest:0}` yields `planned=8, executed=7, not_executed=1` even
though the timelines observed something different for run 10. -/
theorem c6_metadata_preferred_witness :
    (buildRowFor [((10, 1), [(5, 1)])]
        (fun _ => some ⟨some "R", none, none, none, some ⟨5, 1, 0, 0, 2⟩⟩) 10).planned =
      5 + 1 + 0 + 0 + 2 ∧
    (buildRowFor [((10, 1), [(5, 1)])]
        (fun _ => some ⟨some "R", none, none, none, some ⟨5, 1, 0, 0, 2⟩⟩) 10).executed =
      5 + 2 ∧
    (buildRowFor [((10, 1), [(5, 1)])]
        (fun _ => some ⟨some "R", none, none, none, some ⟨5, 1, 0, 0, 2⟩⟩) 10).not_executed =
      1 + 0 ∧
    (buildRowFor [((10, 1), [(5, 1)])]
        (fun _ => some ⟨some "R", none, none, none, some ⟨5, 1, 0, 0, 2⟩⟩) 10).passed = 5 ∧
    (buildRowFor [((10, 1), [(5, 1)])]
        (fun _ => some ⟨some "R", none, none, none, some ⟨5, 1, 0, 0, 2⟩⟩) 10).failed = 2 ∧
    (10 ∈ run_ids_all [((10, 1), [(5, 1)])] [10] →
      buildRowFor [((10, 1), [(5, 1)])]
          (fun _ => some ⟨some "R", none, none, none, some ⟨5, 1, 0, 0, 2⟩⟩) 10 ∈
        (build_rows_and_grand [((10, 1), [(5, 1)])]
          (fun _ => some ⟨some "R", none, none, none, some ⟨5, 1, 0, 0, 2⟩⟩) [10]).1) :=
  c6_metadata_preferred [((10, 1), [(5, 1)])]
    (fun _ => some ⟨some "R", none, none, none, some ⟨5, 1, 0, 0, 2⟩⟩)
    [10] 10 ⟨some "R", none, none, none, some ⟨5, 1, 0, 0, 2⟩⟩ ⟨5, 1, 0, 0, 2⟩ rfl rfl

/-- C7: when the metadata fetch fails (no metadata), the build does not
abort: the row falls back to the local tally — planned counts the distinct
observed test ids, only each test's most recent status counts toward passed
(1) or failed (5), executed = passed + failed, not_executed = planned -
executed. -/
theorem c7_fallback_tally (tm : TestsMap) (metaOf : Int → Option RunMeta)
    (runIds : List Int) (rid : Int) (hm : metaOf rid = none) :
    (buildRowFor tm metaOf rid).planned = ((perRunTestIds tm rid).length : Int) ∧
    (buildRowFor tm metaOf rid).passed = (countLastStatus tm rid 1 : Int) ∧
    (buildRowFor tm metaOf rid).failed = (countLastStatus tm rid 5 : Int) ∧
    (buildRowFor tm metaOf rid).executed =
      (buildRowFor tm metaOf rid).passed + (buildRowFor tm metaOf rid).failed ∧
    (buildRowFor tm metaOf rid).not_executed =
      (buildRowFor tm metaOf rid).planned - (buildRowFor tm metaOf rid).executed ∧
    (rid ∈ run_ids_all tm runIds →
      buildRowFor tm metaOf rid ∈ (build_rows_and_grand tm metaOf runIds).1) := by
  obtain ⟨h1, h2, h3, h4, h5⟩ := buildRowFor_no_meta tm metaOf rid hm
  refine ⟨h1, h2, h3, ?_, ?_, mem_build_rows tm metaOf runIds rid⟩
  · rw [h4, h2, h3]
  · rw [h5, h1, h4]

/-- C7 witness: a run with a failed metadata fetch and two observed tests,
one most recently passed (after an earlier failure) and one most recently
failed. -/
theorem c7_fallback_tally_witness :
    (buildRowFor [((7, 3), [(10, 5), (20, 1)]), ((7, 4), [(9, 5)])]
        (fun _ => none) 7).planned =
      ((perRunTestIds [((7, 3), [(10, 5), (20, 1)]), ((7, 4), [(9, 5)])] 7).length : Int) ∧
    (buildRowFor [((7, 3), [(10, 5), (20, 1)]), ((7, 4), [(9, 5)])]
        (fun _ => none) 7).passed =
      (countLastStatus [((7, 3), [(10, 5), (20, 1)]), ((7, 4), [(9, 5)])] 7 1 : Int) ∧
    (buildRowFor [((7, 3), [(10, 5), (20, 1)]), ((7, 4), [(9, 5)])]
        (fun _ => none) 7).failed =
      (countLastStatus [((7, 3), [(10, 5), (20, 1)]), ((7, 4), [(9, 5)])] 7 5 : Int) ∧
    (buildRowFor [((7, 3), [(10, 5), (20, 1)]), ((7, 4), [(9, 5)])]
        (fun _ => none) 7).executed =
      (buildRowFor [((7, 3), [(10, 5), (20, 1)]), ((7, 4), [(9, 5)])]
        (fun _ => none) 7).passed +
      (buildRowFor [((7, 3), [(10, 5), (20, 1)]), ((7, 4), [(9, 5)])]
        (fun _ => none) 7).failed ∧
    (buildRowFor [((7, 3), [(10, 5), (20, 1)]), ((7, 4), [(9, 5)])]
        (fun _ => none) 7).not_executed =
      (buildRowFor [((7, 3), [(10, 5), (20, 1)]), ((7, 4), [(9, 5)])]
        (fun _ => none) 7).planned -
      (buildRowFor [((7, 3), [(10, 5), (20, 1)]), ((7, 4), [(9, 5)])]
        (fun _ => none) 7).executed ∧
    (7 ∈ run_ids_all [((7, 3), [(10, 5), (20, 1)]), ((7, 4), [(9, 5)])] [7] →
      buildRowFor [((7, 3), [(10, 5), (20, 1)]), ((7, 4), [(9, 5)])]
          (fun _ => none) 7 ∈
        (build_rows_and_grand [((7, 3), [(10, 5), (20, 1)]), ((7, 4), [(9, 5)])]
          (fun _ => none) [7]).1) :=
  c7_fallback_tally [((7, 3), [(10, 5), (20, 1)]), ((7, 4), [(9, 5)])]
    (fun _ => none) [7] 7 rfl

/-- C10: on the metadata-preferred path,
`planned - executed - not_executed` equals the metadata retest count, so
`not_executed = planned - executed` holds exactly when the retest count is
zero. -/
theorem c10_retest_gap (tm : TestsMap) (metaOf : Int → Option RunMeta)
    (rid : Int) (m : RunMeta) (c : Counters)
    (hm : metaOf rid = some m) (hc : m.counters = some c) :
    (buildRowFor tm metaOf rid).planned - (buildRowFor tm metaOf rid).executed -
        (buildRowFor tm metaOf rid).not_executed = c.retest ∧
    ((buildRowFor tm metaOf rid).not_executed =
        (buildRowFor tm metaOf rid).planned - (buildRowFor tm metaOf rid).executed ↔
      c.retest = 0) := by
  obtain ⟨h1, h2, h3, _, _⟩ := buildRowFor_counters tm metaOf rid m c hm hc
  rw [h1, h2, h3]
  constructor
  · ring
  · constructor <;> intro h <;> omega

/-- C10 witness: with one retest in the metadata the identity
`not_executed = planned - executed` fails by exactly that retest. -/
theorem c10_retest_gap_witness :
    (buildRowFor [] (fun _ => some ⟨none, none, none, none, some ⟨5, 1, 0, 3, 2⟩⟩) 10).planned -
      (buildRowFor [] (fun _ => some ⟨none, none, none, none, some ⟨5, 1, 0, 3, 2⟩⟩) 10).executed -
      (buildRowFor [] (fun _ => some ⟨none, none, none, none, some ⟨5, 1, 0, 3, 2⟩⟩) 10).not_executed =
      3 ∧
    ((buildRowFor [] (fun _ => some ⟨none, none, none, none, some ⟨5, 1, 0, 3, 2⟩⟩) 10).not_executed =
      (buildRowFor [] (fun _ => some ⟨none, none, none, none, some ⟨5, 1, 0, 3, 2⟩⟩) 10).planned -
        (buildRowFor [] (fun _ => some ⟨none, none, none, none, some ⟨5, 1, 0, 3, 2⟩⟩) 10).executed ↔
      (3 : Int) = 0) :=
  c10_retest_gap [] (fun _ => some ⟨none, none, none, none, some ⟨5, 1, 0, 3, 2⟩⟩) 10
    ⟨none, none, none, none, some ⟨5, 1, 0, 3, 2⟩⟩ ⟨5, 1, 0, 3, 2⟩ rfl rfl

/-! ## Behavior on an invalid (empty) day window -/

theorem firstExecIdx_of_no_executed {tl : Timeline} (h : firstExecutedTs tl = none)
    (w : List (Int × Int)) : firstExecIdx w tl = .ok none := by
  induction tl with
  | nil => rfl
  | cons o rest ih =>
      obtain ⟨ts, st⟩ := o
      by_cases hst : st ∈ EXECUTED_FOR_COUNTS
      · rw [firstExecutedTs, if_pos hst] at h
        exact absurd h (by simp)
      · rw [firstExecutedTs, if_neg hst] at h
        rw [firstExecIdx, if_neg hst]
        exact ih h

theorem firstExecIdx_err_on_empty {tl : Timeline}
    (h : (firstExecutedTs tl).isSome) :
    firstExecIdx [] tl = .error .indexError := by
  induction tl with
  | nil => simp [firstExecutedTs] at h
  | cons o rest ih =>
      obtain ⟨ts, st⟩ := o
      by_cases hst : st ∈ EXECUTED_FOR_COUNTS
      · rw [firstExecIdx, if_pos hst]
        rfl
      · rw [firstExecutedTs, if_neg hst] at h
        rw [firstExecIdx, if_neg hst]
        exact ih h

theorem foldl_cumStep_none (tm : TestsMap) (acc : List Int) :
    (tm.map (fun _ => (none : Option Int))).foldl cumStep acc = acc := by
  induction tm generalizing acc with
  | nil => rfl
  | cons e tm ih => rw [List.map_cons, List.foldl_cons]; exact ih acc

theorem foldl_dailyStep_none (tm : TestsMap) (acc : List Int) :
    (tm.map (fun _ => (none : Option Int))).foldl dailyStep acc = acc := by
  induction tm generalizing acc with
  | nil => rfl
  | cons e tm ih => rw [List.map_cons, List.foldl_cons]; exact ih acc

theorem mapM_ok_none {tm : TestsMap} (h : ∀ e ∈ tm, firstExecutedTs e.2 = none)
    (w : List (Int × Int)) :
    tm.mapM (fun e => firstExecIdx w e.2) = .ok (tm.map (fun _ => none)) := by
  induction tm with
  | nil => rfl
  | cons e tm ih =>
      rw [List.mapM_cons, firstExecIdx_of_no_executed (h e (List.mem_cons_self _ _)) w,
        ih (fun x hx => h x (List.mem_cons_of_mem _ hx))]
      rfl

theorem mapM_err_on_empty {tm : TestsMap}
    (h : ∃ e ∈ tm, (firstExecutedTs e.2).isSome) :
    tm.mapM (fun e => firstExecIdx [] e.2) = .error .indexError := by
  induction tm with
  | nil => simp at h
  | cons e tm ih =>
      by_cases he : (firstExecutedTs e.2).isSome
      · rw [List.mapM_cons, firstExecIdx_err_on_empty he]
        rfl
      · have he2 : firstExecutedTs e.2 = none := by
          cases hfe : firstExecutedTs e.2 with
          | none => rfl
          | some ts => rw [hfe] at he; simp at he
        obtain ⟨x, hx, hxs⟩ := h
        rcases List.mem_cons.mp hx with hxe | hxt
        · subst hxe
          rw [he2] at hxs
          simp at hxs
        · rw [List.mapM_cons, firstExecIdx_of_no_executed he2 [],
            ih ⟨x, hxt, hxs⟩]
          rfl

theorem buildWindow_nil_of_lt_one {days : Int} (h : days < 1) (base : Int) :
    buildWindow days base = [] := by
  have h0 : days.toNat = 0 := by omega
  rw [buildWindow, h0]
  rfl

/-- C9 counterexample: at `days = 0 < 1` with an empty tests map,
`compute_executed_series` does not fail at all — no `ConfigurationError` is
raised (no such error exists in the code); it silently returns empty
series. -/
theorem c9_counterexample : compute_executed_series [] 0 0 = .ok ([], []) := rfl

/-- C9 amended: the code performs no validation of `num_days`.  For
`days < 1` the day window is empty; when no pair has an executed observation
the computation silently returns empty series, and when some pair has one it
fails with an `IndexError` (from the `day_start_utc[0]` access) in the middle
of classification — not with a `ConfigurationError` before aggregation.  For
`days >= 1` the computation never fails. -/
theorem c9_no_days_validation (tm : TestsMap) (days base : Int) :
    (days < 1 → (∀ e ∈ tm, firstExecutedTs e.2 = none) →
      compute_executed_series tm days base = .ok ([], [])) ∧
    (days < 1 → (∃ e ∈ tm, (firstExecutedTs e.2).isSome) →
      compute_executed_series tm days base = .error .indexError) ∧
    (1 ≤ days → ∃ p, compute_executed_series tm days base = .ok p) := by
  refine ⟨?_, ?_, ?_⟩
  · intro hdays hnone
    rw [compute_executed_series, buildWindow_nil_of_lt_one hdays base,
      compute_series_on_window, mapM_ok_none hnone []]
    show Except.ok _ = _
    rw [foldl_cumStep_none, foldl_dailyStep_none]
    rfl
  · intro hdays hsome
    rw [compute_executed_series, buildWindow_nil_of_lt_one hdays base,
      compute_series_on_window, mapM_err_on_empty hsome]
    rfl
  · intro hdays
    exact ⟨_, compute_on_window_eq (buildWindow_ne_nil hdays base) tm⟩

/-- C9 witness for the amended statement: all three behaviors at concrete
inputs — silent empty result at `days = 0` with no executed observations,
`IndexError` at `days = 0` with one executed observation, success at
`days = 1`. -/
theorem c9_no_days_validation_witness :
    compute_executed_series [((1, 1), [(5, 3)])] 0 0 = .ok ([], []) ∧
    compute_executed_series [((1, 1), [(5, 1)])] 0 0 = .error .indexError ∧
    ∃ p, compute_executed_series [((1, 1), [(5, 1)])] 1 0 = .ok p :=
  ⟨(c9_no_days_validation [((1, 1), [(5, 3)])] 0 0).1 (by norm_num)
      (by intro e he; simp at he; rw [he]; rfl),
   (c9_no_days_validation [((1, 1), [(5, 1)])] 0 0).2.1 (by norm_num)
      ⟨((1, 1), [(5, 1)]), by simp, by rfl⟩,
   (c9_no_days_validation [((1, 1), [(5, 1)])] 1 0).2.2 (by norm_num)⟩
